import Mathlib

/-!
Verification of the Heimdall-S3R RPC load balancer core against its
specification.  The Go sources are shallowly embedded: Redis lookups become
explicit lookup functions, machine integers become `Int`/`Nat`, fallible
operations return `Option`/sum types, and the runtime panic reachable in
`ProviderPool.Next` is made explicit as a distinguished outcome.
-/

namespace Heimdall









/-- Health snapshot stored in Redis under `health:<name>`
(`provider.HealthStatus`; only the fields read by the embedded code are
kept - timestamps and success rate are never inspected by selection). -/
structure HealthStatus where
  healthy : Bool
  latencyMs : Int
  errorMessage : String
  deriving Repr, DecidableEq

/-- Result of `health.GetProviderStatus`: a Redis/unmarshal error
(`(nil, err)`), a missing key (`(nil, nil)` on `redis.Nil`), or a decoded
snapshot (`(status, nil)`). -/
inductive HealthLookup where
  | err
  | missing
  | found (status : HealthStatus)
  deriving Repr, DecidableEq

/-- The filter condition of `ProviderPool.Next` (pool.go line 45):
`err != nil || status == nil || status.Healthy` - a provider is kept as a
candidate on lookup error, on a missing snapshot, or on a healthy one. -/
def eligible : HealthLookup → Bool
  | .err => true
  | .missing => true
  | .found st => st.healthy

/-- The healthy flag computed by `Handler.GetSystemStatus`
(handler.go line 165): `healthStatus != nil && healthStatus.Healthy`; an
errored lookup also yields `nil` there, hence `false`. -/
def statusHealthy : HealthLookup → Bool
  | .err => false
  | .missing => false
  | .found st => st.healthy

/-- Outcome of `ProviderPool.Next`.  `panik` marks the Go runtime panic
(integer divide by zero) raised by `healthyProviders[p.current%len(healthyProviders)]`
when the healthy slice is empty. -/
inductive NextOutcome where
  | ok (name : String)
  | noProviders
  | panik
  deriving Repr, DecidableEq

/-- One step of the least-latency scan of `ProviderPool.Next`
(pool.go lines 63-69): `latency, _ := GetLatency(...)` ignores the error
(leaving `0`), and the provider is recorded only when
`latency > 0 && latency < minLatency`. -/
def scanStep (latencyOf : String → Option Int) (acc : Option String × Int)
    (p : String) : Option String × Int :=
  let lat := (latencyOf p).getD 0
  if lat > 0 ∧ lat < acc.2 then (some p, lat) else acc

/-- `ProviderPool.Next` (pool.go lines 33-83).  `providers` is the pool in
order, `cursor` is `p.current`, `healthOf` abstracts
`health.GetProviderStatus` and `latencyOf` abstracts `GetLatency`
(`none` = error/missing key).  Returns the outcome and the new cursor. -/
def next (providers : List String) (cursor : Nat)
    (healthOf : String → HealthLookup) (latencyOf : String → Option Int) :
    NextOutcome × Nat :=
  if providers = [] then (.noProviders, cursor)
  else
    let healthy := providers.filter (fun p => eligible (healthOf p))
    match healthy.find? (fun p => (latencyOf p).isNone) with
    | some p => (.ok p, cursor)
    | none =>
      match (healthy.foldl (scanStep latencyOf) (none, 999999)).1 with
      | some best => (.ok best, cursor)
      | none =>
        if healthy = [] then (.panik, cursor)
        else
          (.ok (healthy.getD (cursor % healthy.length) ""),
           (cursor + 1) % providers.length)

/-- A latency table with no samples at all. -/
def noSamples : String → Option Int := fun _ => none

/-- No health snapshots stored. -/
def noSnapshots : String → HealthLookup := fun _ => .missing

/-- An unhealthy within-TTL snapshot for every provider. -/
def allUnhealthy : String → HealthLookup :=
  fun _ => .found { healthy := false, latencyMs := 0, errorMessage := "down" }

/-- Latency table with a zero-millisecond sample for A (a legal stored
value: `UpdateLatency` writes `latency.Milliseconds()`, which is 0 for a
sub-millisecond round trip). -/
def zeroSample : String → Option Int :=
  fun p => if p = "A" then some 0 else if p = "B" then some 50 else none

/-- The S2 latency table: A=150, B=50, C=200. -/
def s2Sample : String → Int :=
  fun p => if p = "A" then 150 else if p = "B" then 50 else 200

/-- Selection result of `NextWithExclude`. -/
inductive SelectOutcome where
  | ok (name : String)
  | noCandidates
  deriving Repr, DecidableEq

/-- Modelled from the spec: `ProviderPool.NextWithExclude` is called from
retry.go line 58 but is absent from the sources; §4.2 of the spec defines
it as selection over the candidate set {p ∉ E ∧ (no snapshot ∨ healthy)}
with a discovery phase for unmeasured candidates (round-robin over them),
a least-latency exploitation phase (ties by order), and the error
"no providers available" on an empty candidate set. -/
def nextWithExclude (providers : List String) (excl : List String)
    (cursor : Nat) (healthOf : String → HealthLookup)
    (latencyOf : String → Option Int) : SelectOutcome × Nat :=
  let candidates :=
    providers.filter (fun p => !excl.contains p && eligible (healthOf p))
  if candidates = [] then (.noCandidates, cursor)
  else
    let unmeasured := candidates.filter (fun p => (latencyOf p).isNone)
    if unmeasured = [] then
      match (candidates.foldl (scanStep latencyOf) (none, 999999)).1 with
      | some best => (.ok best, cursor + 1)
      | none => (.ok (candidates.getD (cursor % candidates.length) ""),
                 cursor + 1)
    else
      (.ok (unmeasured.getD (cursor % unmeasured.length) ""), cursor + 1)

/-- Upstream reply seen by `BaseProvider.ForwardRequest`: either a
transport failure of the HTTP client, or an HTTP response with a status
code and a body that may or may not decode as a JSON-RPC response. -/
inductive UpstreamReply (ρ : Type) where
  | transportFail
  | httpResp (status : Nat) (decodedBody : Option ρ)
  deriving Repr, DecidableEq

/-- `BaseProvider.ForwardRequest` (part_000 lines 98-145) after the request
has been serialized: transport error ⇒ error; non-200 status ⇒ error;
body that fails to unmarshal ⇒ error; otherwise the decoded JSON-RPC
response is returned with a nil error - even when its `error` field is
populated. -/
def forwardRequest {ρ : Type} : UpstreamReply ρ → Except String ρ
  | .transportFail => .error "HTTP request failed"
  | .httpResp status body =>
      if status ≠ 200 then .error "provider returned HTTP error status"
      else
        match body with
        | none => .error "failed to unmarshal response"
        | some r => .ok r

/-- gobreaker's consecutive-failure counter after one observed outcome
(spec §4.3, matching `gobreaker.Counts.ConsecutiveFailures`): success
resets the counter to 0, failure increments it. -/
def breakerRecord (consecutiveFailures : Nat) (ok : Bool) : Nat :=
  if ok then 0 else consecutiveFailures + 1

/-- Environment of one dispatched request, fixed for its duration:
the pool, the Redis views used by selection, the operator overrides
(`forcedStates[name] == "open"`), whether each provider's breaker
short-circuits (`gobreaker` Open state within its timeout), and each
provider's upstream reply. -/
structure Env (ρ : Type) where
  pool : List String
  healthOf : String → HealthLookup
  latencyOf : String → Option Int
  forced : String → Bool
  breakerShort : String → Bool
  reply : String → UpstreamReply ρ

/-- One observable event of the retry loop of `ExecuteWithRetry`: a
selected provider was skipped because of an operator override, was
short-circuited by an open breaker, or was actually forwarded to (with
the outcome). -/
inductive Event where
  | skippedForced (p : String)
  | breakerShort (p : String)
  | forwarded (p : String) (ok : Bool)
  deriving Repr, DecidableEq

/-- The provider a retry-loop event concerns. -/
def Event.provider : Event → String
  | .skippedForced p => p
  | .breakerShort p => p
  | .forwarded p _ => p

/-- Whether an event is an actual forward attempt against an upstream. -/
def Event.isForward : Event → Bool
  | .forwarded _ _ => true
  | _ => false

/-- Result of `ExecuteWithRetry`. -/
inductive RunResult (ρ : Type) where
  | success (resp : ρ) (provider : String)
  | failure (msg : String)
  deriving Repr, DecidableEq

/-- The retry loop of `RetryHandler.ExecuteWithRetry` (retry.go lines
49-105), with `fuel` remaining attempts (maxRetries = 3), the exclusion
set `tried`, the pool cursor, and the last error message.  Each iteration
selects via `NextWithExclude`, marks the provider tried, skips it if
operator-forced open, otherwise runs the forward through the breaker
(an open breaker fails fast without calling the provider); the first
transport-successful response is returned immediately.  Backoff sleeps
and context cancellation are not modelled.  Returns the outcome and the
event trace. -/
def run {ρ : Type} (env : Env ρ) : Nat → List String → Nat → String →
    RunResult ρ × List Event
  | 0, _, _, lastErr =>
      (.failure ("max retries exceeded, last error: " ++ lastErr), [])
  | fuel + 1, tried, cursor, lastErr =>
      match nextWithExclude env.pool tried cursor env.healthOf env.latencyOf with
      | (.noCandidates, _) =>
          (.failure "failed to select provider: no providers available", [])
      | (.ok p, cursor') =>
          if env.forced p then
            let r := run env fuel (p :: tried) cursor' lastErr
            (r.1, .skippedForced p :: r.2)
          else if env.breakerShort p then
            let r := run env fuel (p :: tried) cursor' "circuit breaker is open"
            (r.1, .breakerShort p :: r.2)
          else
            match forwardRequest (env.reply p) with
            | .ok resp => (.success resp p, [.forwarded p true])
            | .error msg =>
                let r := run env fuel (p :: tried) cursor' msg
                (r.1, .forwarded p false :: r.2)

mutual

/-- Parsed JSON values as Go's `encoding/json` produces them for
`interface{}` targets: objects become maps (field order of the source
text is lost, duplicate keys collapse), arrays become slices.  Numbers
are modelled as integers - every numeric literal appearing in the
embedded scenarios is integral. -/
inductive Json where
  | null
  | bool (b : Bool)
  | num (n : Int)
  | str (s : String)
  | arr (xs : JsonArr)
  | obj (fs : JsonObj)

/-- Spine of a JSON array. -/
inductive JsonArr where
  | nil
  | cons (hd : Json) (tl : JsonArr)

/-- Fields of a JSON object, in some enumeration order (Go map iteration
order is arbitrary; `json.Marshal` sorts the keys before output). -/
inductive JsonObj where
  | nil
  | cons (key : String) (val : Json) (tl : JsonObj)

end

/-- JSON string quoting: quote and escape backslash and double quote.
(Go additionally escapes control and HTML characters; none of the keys or
values handled by the embedded code contain such characters.) -/
def escapeChar (c : Char) : String :=
  if c = '"' then "\\\"" else if c = '\\' then "\\\\" else String.singleton c

/-- Quote a string as a JSON string literal. -/
def quoteJson (s : String) : String :=
  "\"" ++ String.join (s.toList.map escapeChar) ++ "\""

/-- Comma-separated join. -/
def joinComma : List String → String
  | [] => ""
  | [x] => x
  | x :: xs => x ++ "," ++ joinComma xs

/-- Render already-serialized object fields. -/
def joinFields (l : List (String × String)) : String :=
  joinComma (l.map (fun kv => quoteJson kv.1 ++ ":" ++ kv.2))

/-- Lexicographic strict comparison of character lists by code point
(UTF-8 byte order and code-point order agree, so this is the order
`sort.Strings` uses on Go's UTF-8 strings). -/
def charListLt : List Char → List Char → Bool
  | [], [] => false
  | [], _ :: _ => true
  | _ :: _, [] => false
  | c :: cs, d :: ds =>
      if c.toNat < d.toNat then true
      else if d.toNat < c.toNat then false
      else charListLt cs ds

/-- Strict lexicographic order on strings. -/
def strLt (a b : String) : Bool := charListLt a.toList b.toList

/-- Order on serialized fields: by key, ties by rendered value (Go map
keys are unique, so the tiebreak never fires on marshaller inputs; it
merely makes the order total). -/
def pairLe (a b : String × String) : Prop :=
  strLt a.1 b.1 = true ∨ (a.1 = b.1 ∧ strLt b.2 a.2 = false)

instance : DecidableRel pairLe := fun a b => by
  unfold pairLe
  infer_instance

/-- Sort serialized object fields the way `json.Marshal` sorts map keys. -/
def sortPairs (l : List (String × String)) : List (String × String) :=
  List.insertionSort pairLe l

mutual

/-- `json.Marshal` on parsed JSON values: object keys are emitted in
sorted order, so the serialization is independent of the enumeration
order of the fields. -/
def Json.serialize : Json → String
  | .null => "null"
  | .bool true => "true"
  | .bool false => "false"
  | .num n => toString n
  | .str s => quoteJson s
  | .arr xs => "[" ++ JsonArr.serializeItems xs ++ "]"
  | .obj fs => "\x7b" ++ joinFields (sortPairs (JsonObj.serializeFields fs)) ++ "\x7d"

/-- Serialize array items, comma separated. -/
def JsonArr.serializeItems : JsonArr → String
  | .nil => ""
  | .cons hd .nil => hd.serialize
  | .cons hd (.cons hd' tl) =>
      hd.serialize ++ "," ++ JsonArr.serializeItems (.cons hd' tl)

/-- Serialize each field's value, keeping the enumeration order. -/
def JsonObj.serializeFields : JsonObj → List (String × String)
  | .nil => []
  | .cons k v tl => (k, v.serialize) :: JsonObj.serializeFields tl

end

/-- Insert a field into a key-sorted field list. -/
def sortObjInsert (k : String) (v : Json) : JsonObj → JsonObj
  | .nil => .cons k v .nil
  | .cons k' v' tl =>
      if strLt k' k = false then .cons k v (.cons k' v' tl)
      else .cons k' v' (sortObjInsert k v tl)

/-- Insertion sort of object fields by key. -/
def sortObj : JsonObj → JsonObj
  | .nil => .nil
  | .cons k v tl => sortObjInsert k v (sortObj tl)

mutual

/-- Canonical form of a JSON value: object fields sorted by key at every
depth.  Two values are "identical as JSON values regardless of object
field order" exactly when their canonical forms are equal. -/
def Json.canon : Json → Json
  | .null => .null
  | .bool b => .bool b
  | .num n => .num n
  | .str s => .str s
  | .arr xs => .arr (JsonArr.canonItems xs)
  | .obj fs => .obj (sortObj (JsonObj.canonFields fs))

/-- Canonicalize array items. -/
def JsonArr.canonItems : JsonArr → JsonArr
  | .nil => .nil
  | .cons hd tl => .cons hd.canon (JsonArr.canonItems tl)

/-- Canonicalize field values (order untouched; `sortObj` handles it). -/
def JsonObj.canonFields : JsonObj → JsonObj
  | .nil => .nil
  | .cons k v tl => .cons k v.canon (JsonObj.canonFields tl)

end

/-- Truncate to a 32-bit word. -/
def w32 (n : Nat) : Nat := n % 4294967296

/-- 32-bit modular addition. -/
def wadd (a b : Nat) : Nat := w32 (a + b)

/-- 32-bit right rotation. -/
def rotr (n x : Nat) : Nat := w32 ((x >>> n) ||| (x <<< (32 - n)))

/-- 32-bit bitwise complement. -/
def bnot32 (x : Nat) : Nat := x ^^^ 4294967295

/-- SHA-256 Ch function. -/
def shaCh (e f g : Nat) : Nat := (e &&& f) ^^^ (bnot32 e &&& g)

/-- SHA-256 Maj function. -/
def shaMaj (a b c : Nat) : Nat := (a &&& b) ^^^ (a &&& c) ^^^ (b &&& c)

/-- SHA-256 Σ0. -/
def bigSigma0 (x : Nat) : Nat := rotr 2 x ^^^ rotr 13 x ^^^ rotr 22 x

/-- SHA-256 Σ1. -/
def bigSigma1 (x : Nat) : Nat := rotr 6 x ^^^ rotr 11 x ^^^ rotr 25 x

/-- SHA-256 σ0. -/
def smallSigma0 (x : Nat) : Nat := rotr 7 x ^^^ rotr 18 x ^^^ (x >>> 3)

/-- SHA-256 σ1. -/
def smallSigma1 (x : Nat) : Nat := rotr 17 x ^^^ rotr 19 x ^^^ (x >>> 10)

/-- SHA-256 round constants (FIPS 180-2, written in decimal). -/
def shaK : List Nat :=
  [1116352408, 1899447441, 3049323471, 3921009573,
   961987163, 1508970993, 2453635748, 2870763221,
   3624381080, 310598401, 607225278, 1426881987,
   1925078388, 2162078206, 2614888103, 3248222580,
   3835390401, 4022224774, 264347078, 604807628,
   770255983, 1249150122, 1555081692, 1996064986,
   2554220882, 2821834349, 2952996808, 3210313671,
   3336571891, 3584528711, 113926993, 338241895,
   666307205, 773529912, 1294757372, 1396182291,
   1695183700, 1986661051, 2177026350, 2456956037,
   2730485921, 2820302411, 3259730800, 3345764771,
   3516065817, 3600352804, 4094571909, 275423344,
   430227734, 506948616, 659060556, 883997877,
   958139571, 1322822218, 1537002063, 1747873779,
   1955562222, 2024104815, 2227730452, 2361852424,
   2428436474, 2756734187, 3204031479, 3329325298]

/-- SHA-256 rolling state (the eight working words). -/
structure Hash8 where
  a : Nat
  b : Nat
  c : Nat
  d : Nat
  e : Nat
  f : Nat
  g : Nat
  h : Nat
  deriving Repr, DecidableEq

/-- SHA-256 initial hash value (FIPS 180-2, written in decimal). -/
def shaH0 : Hash8 :=
  ⟨1779033703, 3144134277, 1013904242, 2773480762,
   1359893119, 2600822924, 528734635, 1541459225⟩

/-- Big-endian bytes of a number, `k` bytes wide. -/
def beBytes (k n : Nat) : List Nat :=
  (List.range k).map (fun i => (n >>> (8 * (k - 1 - i))) % 256)

/-- SHA-256 padding: append 0x80, zero bytes to 56 mod 64, then the
64-bit big-endian bit length. -/
def shaPad (msg : List Nat) : List Nat :=
  msg ++ [0x80] ++ List.replicate ((119 - msg.length % 64) % 64) 0 ++
    beBytes 8 (8 * msg.length)

/-- Split a byte list into 64-byte blocks; `fuel` bounds the recursion
structurally (each step consumes at least one byte, so `length + 1`
suffices). -/
def toBlocksAux : Nat → List Nat → List (List Nat)
  | 0, _ => []
  | fuel + 1, l => if l = [] then [] else l.take 64 :: toBlocksAux fuel (l.drop 64)

/-- Split a byte list into 64-byte blocks. -/
def toBlocks (l : List Nat) : List (List Nat) := toBlocksAux (l.length + 1) l

/-- The i-th big-endian 32-bit word of a block. -/
def wordAt (block : List Nat) (i : Nat) : Nat :=
  (block.getD (4 * i) 0 <<< 24) ||| (block.getD (4 * i + 1) 0 <<< 16) |||
  (block.getD (4 * i + 2) 0 <<< 8) ||| block.getD (4 * i + 3) 0

/-- Message schedule: 16 block words extended to 64. -/
def msgSchedule (block : List Nat) : List Nat :=
  let w16 := (List.range 16).map (wordAt block)
  (List.range 48).foldl
    (fun w j =>
      let i := j + 16
      w ++ [wadd (wadd (smallSigma1 (w.getD (i - 2) 0)) (w.getD (i - 7) 0))
              (wadd (smallSigma0 (w.getD (i - 15) 0)) (w.getD (i - 16) 0))])
    w16

/-- One SHA-256 compression round. -/
def shaRound (st : Hash8) (ki wi : Nat) : Hash8 :=
  let t1 := wadd st.h (wadd (bigSigma1 st.e) (wadd (shaCh st.e st.f st.g) (wadd ki wi)))
  let t2 := wadd (bigSigma0 st.a) (shaMaj st.a st.b st.c)
  ⟨wadd t1 t2, st.a, st.b, st.c, wadd st.d t1, st.e, st.f, st.g⟩

/-- Process one 64-byte block. -/
def shaBlock (st : Hash8) (block : List Nat) : Hash8 :=
  let w := msgSchedule block
  let r := (shaK.zip w).foldl (fun s kw => shaRound s kw.1 kw.2) st
  ⟨wadd st.a r.a, wadd st.b r.b, wadd st.c r.c, wadd st.d r.d,
   wadd st.e r.e, wadd st.f r.f, wadd st.g r.g, wadd st.h r.h⟩

/-- SHA-256 of a byte sequence, as 32 bytes (`crypto/sha256.Sum256`). -/
def sha256 (msg : List Nat) : List Nat :=
  let final := (toBlocks (shaPad msg)).foldl shaBlock shaH0
  beBytes 4 final.a ++ beBytes 4 final.b ++ beBytes 4 final.c ++
  beBytes 4 final.d ++ beBytes 4 final.e ++ beBytes 4 final.f ++
  beBytes 4 final.g ++ beBytes 4 final.h

/-- UTF-8 encoding of one character. -/
def utf8Char (c : Char) : List Nat :=
  let n := c.toNat
  if n < 0x80 then [n]
  else if n < 0x800 then
    [0xC0 ||| (n >>> 6), 0x80 ||| (n &&& 0x3F)]
  else if n < 0x10000 then
    [0xE0 ||| (n >>> 12), 0x80 ||| ((n >>> 6) &&& 0x3F), 0x80 ||| (n &&& 0x3F)]
  else
    [0xF0 ||| (n >>> 18), 0x80 ||| ((n >>> 12) &&& 0x3F),
     0x80 ||| ((n >>> 6) &&& 0x3F), 0x80 ||| (n &&& 0x3F)]

/-- UTF-8 bytes of a string (Go strings are UTF-8 byte slices). -/
def strBytes (s : String) : List Nat := (s.toList.map utf8Char).flatten

/-- Lowercase hex digit. -/
def hexDigit (n : Nat) : Char :=
  if n < 10 then Char.ofNat (48 + n) else Char.ofNat (87 + n)

/-- Lowercase hex of one byte, two digits (Go's `%x` on a byte slice). -/
def hexByte (b : Nat) : String :=
  String.mk [hexDigit (b / 16 % 16), hexDigit (b % 16)]

/-- Lowercase hex of a byte sequence. -/
def hexBytes (bs : List Nat) : String := String.join (bs.map hexByte)

/-- `provider.RPCError`.  `data` is an `interface{}`; Go's nil interface
is modelled as `Json.null` (with `omitempty`, a null `data` is omitted on
marshal and restored as nil on unmarshal). -/
structure RPCError where
  code : Int
  message : String
  data : Json

/-- `provider.RPCResponse`.  `result` is an `interface{}` with
`omitempty` - `Json.null` models Go's nil (absent) result; `error` is a
nullable pointer. -/
structure RPCResponse where
  jsonrpc : String
  id : Json
  result : Json
  error : Option RPCError

/-- `provider.RPCRequest`.  `params` is a `[]interface{}`: Go
distinguishes a nil slice (marshals to `null`) from an empty one, hence
the `Option`. -/
structure RPCRequest where
  jsonrpc : String
  id : Json
  method : String
  params : Option JsonArr

/-- Look up an object field (Go maps have unique keys). -/
def objLookup : JsonObj → String → Option Json
  | .nil, _ => none
  | .cons k v tl, key => if k = key then some v else objLookup tl key

/-- `json.Marshal` of an `RPCError` as a JSON value: fields in struct
order, `data` omitted when nil. -/
def encodeErr (e : RPCError) : Json :=
  .obj (.cons "code" (.num e.code) (.cons "message" (.str e.message)
    (match e.data with
     | .null => .nil
     | d => .cons "data" d .nil)))

/-- `json.Unmarshal` into an `RPCError`: missing fields keep their zero
value, mistyped fields fail. -/
def decodeErr (j : Json) : Option RPCError :=
  match j with
  | .null => some ⟨0, "", .null⟩
  | .obj fs =>
      let code? := match objLookup fs "code" with
        | none => some (0 : Int)
        | some (.num c) => some c
        | some _ => none
      let msg? := match objLookup fs "message" with
        | none => some ""
        | some (.str s) => some s
        | some _ => none
      match code?, msg? with
      | some c, some m => some ⟨c, m, (objLookup fs "data").getD .null⟩
      | _, _ => none
  | _ => none

/-- `json.Marshal` of an `RPCResponse` as a JSON value: `jsonrpc` and
`id` always present, `result` and `error` omitted when nil. -/
def encodeResp (r : RPCResponse) : Json :=
  .obj (.cons "jsonrpc" (.str r.jsonrpc) (.cons "id" r.id
    (match r.result, r.error with
     | .null, none => .nil
     | .null, some e => .cons "error" (encodeErr e) .nil
     | res, none => .cons "result" res .nil
     | res, some e => .cons "result" res (.cons "error" (encodeErr e) .nil))))

/-- `json.Unmarshal` into an `RPCResponse` (part_000 line 137): a JSON
`null` body leaves the zero struct, a non-object fails, missing fields
keep zero values. -/
def decodeResp (j : Json) : Option RPCResponse :=
  match j with
  | .null => some ⟨"", .null, .null, none⟩
  | .obj fs =>
      let ver? := match objLookup fs "jsonrpc" with
        | none => some ""
        | some (.str s) => some s
        | some _ => none
      let err? := match objLookup fs "error" with
        | none => some none
        | some .null => some none
        | some ej => (decodeErr ej).map some
      match ver?, err? with
      | some v, some e =>
          some ⟨v, (objLookup fs "id").getD .null,
                (objLookup fs "result").getD .null, e⟩
      | _, _ => none
  | _ => none

/-- The params value `json.Marshal(req.Params)` serializes: a nil slice
marshals to `null`. -/
def paramsJson : Option JsonArr → Json
  | none => .null
  | some xs => .arr xs

/-- `CacheHandler.generateKey` (MINIMAL-PRD lines 448-452):
`fmt.Sprintf("rpc:cache:%s:%x", req.Method, sha256.Sum256(paramsJSON)[:8])`. -/
def generateKey (req : RPCRequest) : String :=
  "rpc:cache:" ++ req.method ++ ":" ++
    hexBytes ((sha256 (strBytes (Json.serialize (paramsJson req.params)))).take 8)

/-- `config.CachingConfig`: the enabled flag and the per-method TTL table
(TTLs as an integral number of time units). -/
structure CachingConfig where
  enabled : Bool
  methods : List (String × Int)

/-- The Redis keyspace used by the cache: key ↦ (stored value, absolute
expiry).  `SET key v EX ttl` prepends; `GET` honours the expiry. -/
def CacheStore := List (String × Json × Int)

/-- Redis `SET` with TTL at time `now`. -/
def storeSet (st : CacheStore) (key : String) (v : Json) (expiry : Int) :
    CacheStore := (key, v, expiry) :: st

/-- Redis `GET` at time `now`: a key past its expiry is gone. -/
def storeGet (st : CacheStore) (now : Int) (key : String) : Option Json :=
  match List.find? (fun e => e.1 = key) st with
  | some (_, v, expiry) => if now < expiry then some v else none
  | none => none

/-- Result of `CacheHandler.GetCachedResponse`. -/
inductive CacheLookup where
  | miss
  | hit (resp : RPCResponse)
  | decodeError

/-- `CacheHandler.GetCachedResponse` (MINIMAL-PRD lines 400-425):
caching disabled, an uncacheable method, or a missing key give a miss;
a stored value is unmarshalled back into a response. -/
def getCachedResponse (cfg : CachingConfig) (st : CacheStore) (now : Int)
    (req : RPCRequest) : CacheLookup :=
  if cfg.enabled = false then .miss
  else
    match cfg.methods.lookup req.method with
    | none => .miss
    | some ttl =>
      if ttl ≤ 0 then .miss
      else
        match storeGet st now (generateKey req) with
        | none => .miss
        | some v =>
          match decodeResp v with
          | none => .decodeError
          | some r => .hit r

/-- `CacheHandler.StoreResponse` (MINIMAL-PRD lines 428-445): a no-op
when caching is disabled or the method is not cacheable; otherwise the
marshalled response is written under the fingerprint key with the
method's TTL.  The response's `error` field is never inspected. -/
def storeResponse (cfg : CachingConfig) (st : CacheStore) (now : Int)
    (req : RPCRequest) (resp : RPCResponse) : CacheStore :=
  if cfg.enabled = false then st
  else
    match cfg.methods.lookup req.method with
    | none => st
    | some ttl =>
      if ttl ≤ 0 then st
      else storeSet st (generateKey req) (encodeResp resp) (now + ttl)

/-- A caching configuration that caches getSlot for 500 time units. -/
def cfgGetSlot : CachingConfig := ⟨true, [("getSlot", 500)]⟩

/-- A concrete getSlot request. -/
def reqGetSlot : RPCRequest := ⟨"2.0", .num 1, "getSlot", some .nil⟩

/-- A concrete response whose upstream `error` field is populated. -/
def respWithError : RPCResponse :=
  ⟨"2.0", .num 1, .null, some ⟨-32000, "upstream failure", .null⟩⟩

/-- Params `[{"a":1,"b":2}]` with the object fields in either order. -/
def paramsAB : Option JsonArr :=
  some (.cons (.obj (.cons "a" (.num 1) (.cons "b" (.num 2) .nil))) .nil)

/-- Same JSON value as `paramsAB`, fields enumerated in the other order. -/
def paramsBA : Option JsonArr :=
  some (.cons (.obj (.cons "b" (.num 2) (.cons "a" (.num 1) .nil))) .nil)

/-- The S4 environment: pool [A, B], no snapshots or samples, no operator
overrides, A's circuit breaker Open (short-circuiting), B answering with
the given response. -/
def envC3 (resp : RPCResponse) : Env RPCResponse where
  pool := ["A", "B"]
  healthOf := noSnapshots
  latencyOf := noSamples
  forced := fun _ => false
  breakerShort := fun p => p = "A"
  reply := fun p => if p = "B" then .httpResp 200 (some resp) else .transportFail

/-- A concrete successful response from B. -/
def resp42 : RPCResponse := ⟨"2.0", .num 1, .num 42, none⟩

/-- The C7 environment: pool [A, B], A replying HTTP 200 with the given
body, breakers closed, no overrides. -/
def envC7 (body : Json) : Env RPCResponse where
  pool := ["A", "B"]
  healthOf := noSnapshots
  latencyOf := noSamples
  forced := fun _ => false
  breakerShort := fun _ => false
  reply := fun p =>
    if p = "A" then .httpResp 200 (decodeResp body) else .transportFail

/-- A marshalled error response used as a concrete upstream body. -/
def bodyWithError : Json := encodeResp respWithError

/-- An environment where A answers HTTP 202 Accepted - a 2xx status that
is not 200 - with a well-formed error-carrying JSON-RPC body, and B
answers HTTP 200 with the same body. -/
def env202 : Env RPCResponse where
  pool := ["A", "B"]
  healthOf := noSnapshots
  latencyOf := noSamples
  forced := fun _ => false
  breakerShort := fun _ => false
  reply := fun p =>
    if p = "A" then .httpResp 202 (decodeResp bodyWithError)
    else .httpResp 200 (decodeResp bodyWithError)

/-- C1: with a non-empty pool whose only provider has a within-TTL
snapshot with `healthy = false`, the candidate set is empty and
`ProviderPool.Next` reaches `healthyProviders[p.current%len(healthyProviders)]`
with an empty slice: it panics (integer divide by zero) instead of
returning the error "no providers available" that the claim requires. -/
theorem next_all_unhealthy_panics :
    (next ["providerA"] 0 allUnhealthy noSamples).1 = .panik := by
  decide

/-- C2: with pool [A, B, C], no latency samples and no health snapshots,
the discovery branch of `ProviderPool.Next` returns the first unmeasured
provider without touching the round-robin cursor, so three consecutive
selections all return A - not each provider exactly once as the claim
states. -/
theorem next_discovery_monopolizes :
    next ["A", "B", "C"] 0 noSnapshots noSamples = (.ok "A", 0) ∧
    next ["A", "B", "C"]
      (next ["A", "B", "C"] 0 noSnapshots noSamples).2
      noSnapshots noSamples = (.ok "A", 0) ∧
    next ["A", "B", "C"]
      (next ["A", "B", "C"]
        (next ["A", "B", "C"] 0 noSnapshots noSamples).2
        noSnapshots noSamples).2
      noSnapshots noSamples = (.ok "A", 0) := by
  refine ⟨by decide, by decide, by decide⟩

/-- C6: both candidates carry a non-negative sample (A=0, B=50), yet the
least-latency scan of `ProviderPool.Next` skips A because of its
`latency > 0` guard and selects B, whose sample is larger - the claim
"returns the candidate with the smallest latency sample, for every
assignment of non-negative latency samples" is false at this input. -/
theorem next_zero_sample_counterexample :
    (next ["A", "B"] 0 noSnapshots zeroSample).1 = .ok "B" ∧
    zeroSample "A" = some 0 ∧ zeroSample "B" = some 50 := by
  decide

/-- The least-latency fold of `ProviderPool.Next`: over providers whose
samples are strictly positive and below the 999999 sentinel, it computes a
provider of minimal sample.  Stated relative to an arbitrary accumulator
for the induction. -/
theorem scan_min (latencyOf : String → Option Int) (sample : String → Int) :
    ∀ (l : List String) (acc : Option String × Int),
    (∀ p ∈ l, latencyOf p = some (sample p)) →
    (∀ p ∈ l, 0 < sample p ∧ sample p < 999999) →
    (∀ q ∈ l, (l.foldl (scanStep latencyOf) acc).2 ≤ sample q) ∧
    (l.foldl (scanStep latencyOf) acc).2 ≤ acc.2 ∧
    ((l.foldl (scanStep latencyOf) acc) = acc ∨
     ∃ p, p ∈ l ∧ (l.foldl (scanStep latencyOf) acc).1 = some p ∧
       (l.foldl (scanStep latencyOf) acc).2 = sample p)
  | [], acc => by
      intro _ _
      exact ⟨by simp, le_refl _, Or.inl rfl⟩
  | p :: ps, acc => by
      intro hsamp hpos
      have hsp : latencyOf p = some (sample p) := hsamp p (by simp)
      have hpp : 0 < sample p ∧ sample p < 999999 := hpos p (by simp)
      have hstep : scanStep latencyOf acc p =
          if 0 < sample p ∧ sample p < acc.2 then (some p, sample p) else acc := by
        simp [scanStep, hsp]
      have ih := scan_min latencyOf sample ps (scanStep latencyOf acc p)
        (fun q hq => hsamp q (by simp [hq]))
        (fun q hq => hpos q (by simp [hq]))
      rcases ih with ⟨ihmin, ihle, ihdisj⟩
      by_cases hc : 0 < sample p ∧ sample p < acc.2
      · rw [hstep, if_pos hc] at ihle ihdisj
        refine ⟨?_, ?_, ?_⟩
        · intro q hq
          rcases List.mem_cons.mp hq with h | h
          · subst h
            simpa [List.foldl_cons, hstep, if_pos hc] using ihle
          · simpa [List.foldl_cons, hstep, if_pos hc] using ihmin q h
        · have : (ps.foldl (scanStep latencyOf) (some p, sample p)).2 ≤ acc.2 :=
            le_trans ihle (le_of_lt hc.2)
          simpa [List.foldl_cons, hstep, if_pos hc] using this
        · rcases ihdisj with heq | ⟨m, hm, h1, h2⟩
          · refine Or.inr ⟨p, by simp, ?_, ?_⟩
            · simp [List.foldl_cons, hstep, if_pos hc, heq]
            · simp [List.foldl_cons, hstep, if_pos hc, heq]
          · exact Or.inr ⟨m, by simp [hm], by
              simpa [List.foldl_cons, hstep, if_pos hc] using h1, by
              simpa [List.foldl_cons, hstep, if_pos hc] using h2⟩
      · rw [hstep, if_neg hc] at ihle ihdisj
        have hge : acc.2 ≤ sample p := by
          rcases not_and_or.mp hc with h | h
          · exact absurd hpp.1 h
          · exact le_of_not_lt h
        refine ⟨?_, ?_, ?_⟩
        · intro q hq
          rcases List.mem_cons.mp hq with h | h
          · subst h
            have : (ps.foldl (scanStep latencyOf) acc).2 ≤ acc.2 := ihle
            simpa [List.foldl_cons, hstep, if_neg hc] using le_trans this hge
          · simpa [List.foldl_cons, hstep, if_neg hc] using ihmin q h
        · simpa [List.foldl_cons, hstep, if_neg hc] using ihle
        · rcases ihdisj with heq | ⟨m, hm, h1, h2⟩
          · exact Or.inl (by simp [List.foldl_cons, hstep, if_neg hc, heq])
          · exact Or.inr ⟨m, by simp [hm], by
              simpa [List.foldl_cons, hstep, if_neg hc] using h1, by
              simpa [List.foldl_cons, hstep, if_neg hc] using h2⟩

/-- C6 (amended): when every candidate is eligible and carries a latency
sample strictly between 0 and the 999999 sentinel, `ProviderPool.Next`
returns a candidate whose sample is minimal.  Samples equal to 0 (or at or
above 999999) are skipped by the scan's `latency > 0 && latency < minLatency`
guard, which is why the original "every non-negative sample" claim fails. -/
theorem next_least_latency (providers : List String) (cursor : Nat)
    (healthOf : String → HealthLookup) (latencyOf : String → Option Int)
    (sample : String → Int)
    (hne : providers ≠ [])
    (helig : ∀ p ∈ providers, eligible (healthOf p) = true)
    (hsamp : ∀ p ∈ providers, latencyOf p = some (sample p))
    (hpos : ∀ p ∈ providers, 0 < sample p ∧ sample p < 999999) :
    ∃ p, (next providers cursor healthOf latencyOf).1 = .ok p ∧
      p ∈ providers ∧ ∀ q ∈ providers, sample p ≤ sample q := by
  have hfilter : providers.filter (fun p => eligible (healthOf p)) = providers :=
    List.filter_eq_self.mpr helig
  have hfind : providers.find? (fun p => (latencyOf p).isNone) = none := by
    refine List.find?_eq_none.mpr ?_
    intro q hq
    simp [hsamp q hq]
  obtain ⟨hmin, -, hdisj⟩ :=
    scan_min latencyOf sample providers (none, 999999) hsamp hpos
  rcases hdisj with heq | ⟨p, hp, h1, h2⟩
  · rcases List.exists_mem_of_ne_nil providers hne with ⟨q, hq⟩
    have h1 := hmin q hq
    rw [heq] at h1
    exact absurd (lt_of_le_of_lt h1 (hpos q hq).2) (lt_irrefl _)
  · refine ⟨p, ?_, hp, ?_⟩
    · simp only [next, if_neg hne, hfilter, hfind, h1]
    · intro q hq
      have := hmin q hq
      rwa [h2] at this

/-- C10: a provider whose health snapshot is missing from Redis, or whose
read fails, is reported with `healthy = false` by `GET /api/v1/status`
(`GetSystemStatus` line 165) while `ProviderPool.Next` keeps it as an
eligible candidate (pool.go line 45) and will select it. -/
theorem status_selection_disagree_on_missing_health (name : String)
    (healthOf : String → HealthLookup) (latencyOf : String → Option Int)
    (h : healthOf name = .err ∨ healthOf name = .missing) :
    statusHealthy (healthOf name) = false ∧
    eligible (healthOf name) = true ∧
    (next [name] 0 healthOf latencyOf).1 = .ok name := by
  have helig : eligible (healthOf name) = true := by
    rcases h with h | h <;> simp [h, eligible]
  have hstat : statusHealthy (healthOf name) = false := by
    rcases h with h | h <;> simp [h, statusHealthy]
  refine ⟨hstat, helig, ?_⟩
  have hfilter : [name].filter (fun p => eligible (healthOf p)) = [name] := by
    simp [helig]
  cases hl : latencyOf name with
  | none =>
      simp [next, hfilter, List.find?, hl]
  | some v =>
      by_cases hv : 0 < v ∧ v < 999999
      · simp [next, hfilter, List.find?, hl, scanStep, hv]
      · simp [next, hfilter, List.find?, hl, scanStep, hv]

/-- Witness for the missing-snapshot disagreement at a concrete input. -/
theorem status_selection_disagree_witness :
    statusHealthy (noSnapshots "A") = false ∧
    eligible (noSnapshots "A") = true ∧
    (next ["A"] 0 noSnapshots noSamples).1 = .ok "A" :=
  status_selection_disagree_on_missing_health "A" noSnapshots noSamples
    (Or.inr rfl)

/-- Witness for the amended least-latency claim at the S2 inputs
(latency A=150, B=50, C=200): a minimal-sample candidate is selected. -/
theorem next_least_latency_witness :
    ∃ p, (next ["A", "B", "C"] 0 noSnapshots (fun q => some (s2Sample q))).1
        = .ok p ∧
      p ∈ ["A", "B", "C"] ∧ ∀ q ∈ ["A", "B", "C"], s2Sample p ≤ s2Sample q :=
  next_least_latency ["A", "B", "C"] 0 noSnapshots
    (fun q => some (s2Sample q)) s2Sample
    (by decide) (by decide) (fun p _ => rfl) (by decide)

/-- The least-latency fold only ever returns a provider of the scanned
list (or keeps the accumulator). -/
theorem scan_result_mem (latencyOf : String → Option Int) :
    ∀ (l : List String) (acc : Option String × Int) (p : String),
      (l.foldl (scanStep latencyOf) acc).1 = some p → p ∈ l ∨ acc.1 = some p
  | [], acc, p => fun h => Or.inr h
  | q :: l, acc, p => by
      intro h
      rcases scan_result_mem latencyOf l (scanStep latencyOf acc q) p h with
        hm | hacc
      · exact Or.inl (List.mem_cons_of_mem q hm)
      · by_cases hcond : (latencyOf q).getD 0 > 0 ∧ (latencyOf q).getD 0 < acc.2
        · simp [scanStep, hcond] at hacc
          simp [hacc]
        · simp [scanStep, hcond] at hacc
          exact Or.inr hacc

/-- A nonempty list's `getD` at an in-range index is a member. -/
theorem getD_mem_of_ne_nil {l : List String} (h : l ≠ []) (n : Nat) :
    l.getD (n % l.length) "" ∈ l := by
  have hlen : 0 < l.length := List.length_pos.mpr h
  have hlt : n % l.length < l.length := Nat.mod_lt _ hlen
  rw [List.getD_eq_getElem l "" hlt]
  exact List.getElem_mem hlt

/-- Any provider returned by `NextWithExclude` lies outside the exclusion
set (spec §4.2: the candidate set already removes E). -/
theorem nextWithExclude_not_excl (providers excl : List String)
    (cursor : Nat) (healthOf : String → HealthLookup)
    (latencyOf : String → Option Int) (p : String)
    (h : (nextWithExclude providers excl cursor healthOf latencyOf).1 = .ok p) :
    ¬ p ∈ excl := by
  unfold nextWithExclude at h
  set candidates :=
    providers.filter (fun q => !excl.contains q && eligible (healthOf q))
    with hcand
  have hmem : p ∈ candidates := by
    by_cases hc : candidates = []
    · rw [if_pos hc] at h
      exact absurd h (by simp)
    · rw [if_neg hc] at h
      by_cases hu : candidates.filter (fun q => (latencyOf q).isNone) = []
      · rw [if_pos hu] at h
        cases hscan : (candidates.foldl (scanStep latencyOf) (none, 999999)).1 with
        | some best =>
            rw [hscan] at h
            simp only [SelectOutcome.ok.injEq] at h
            rcases scan_result_mem latencyOf candidates (none, 999999) best hscan
              with hm | hacc
            · exact h ▸ hm
            · exact absurd hacc (by simp)
        | none =>
            rw [hscan] at h
            simp only [SelectOutcome.ok.injEq] at h
            exact h ▸ getD_mem_of_ne_nil hc cursor
      · rw [if_neg hu] at h
        simp only [SelectOutcome.ok.injEq] at h
        have hin : (candidates.filter (fun q => (latencyOf q).isNone)).getD
            (cursor % (candidates.filter (fun q => (latencyOf q).isNone)).length)
            "" ∈ candidates.filter (fun q => (latencyOf q).isNone) :=
          getD_mem_of_ne_nil hu cursor
        exact h ▸ List.mem_of_mem_filter hin
  have := (List.mem_filter.mp (hcand ▸ hmem)).2
  intro habs
  simp at this
  exact this.1 habs

/-- Prepending one event about a freshly tried provider preserves the
trace invariants. -/
theorem cons_event_inv (tried : List String) (ev : Event) (r2 : List Event)
    (hpt : ¬ ev.provider ∈ tried)
    (h1 : ∀ e ∈ r2, ¬ e.provider ∈ ev.provider :: tried)
    (h2 : (r2.map Event.provider).Nodup) :
    (∀ e ∈ ev :: r2, ¬ e.provider ∈ tried) ∧
    ((ev :: r2).map Event.provider).Nodup := by
  constructor
  · intro e he
    rcases List.mem_cons.mp he with rfl | he
    · exact hpt
    · intro habs
      exact h1 e he (List.mem_cons_of_mem _ habs)
  · rw [List.map_cons]
    refine List.nodup_cons.mpr ⟨?_, h2⟩
    intro habs
    rcases List.mem_map.mp habs with ⟨e, he, hpe⟩
    exact h1 e he (hpe ▸ List.mem_cons_self _ _)

/-- Trace invariants of the retry loop: no selected provider lies in the
exclusion set, providers never repeat across the trace, and at most
`fuel` actual forward attempts occur. -/
theorem run_trace_inv {ρ : Type} (env : Env ρ) :
    ∀ (fuel : Nat) (tried : List String) (cursor : Nat) (lastErr : String),
      (∀ e ∈ (run env fuel tried cursor lastErr).2, ¬ e.provider ∈ tried) ∧
      ((run env fuel tried cursor lastErr).2.map Event.provider).Nodup ∧
      ((run env fuel tried cursor lastErr).2.filter Event.isForward).length ≤ fuel
  | 0, tried, cursor, lastErr => by
      simp [run]
  | fuel + 1, tried, cursor, lastErr => by
      rcases hsel : nextWithExclude env.pool tried cursor env.healthOf
        env.latencyOf with ⟨outcome, cur'⟩
      cases outcome with
      | noCandidates =>
          simp [run, hsel]
      | ok p =>
          have hpt : ¬ p ∈ tried :=
            nextWithExclude_not_excl env.pool tried cursor env.healthOf
              env.latencyOf p (by rw [hsel])
          by_cases hf : env.forced p = true
          · obtain ⟨ih1, ih2, ih3⟩ :=
              run_trace_inv env fuel (p :: tried) cur' lastErr
            have htr : (run env (fuel + 1) tried cursor lastErr).2 =
                .skippedForced p :: (run env fuel (p :: tried) cur' lastErr).2 := by
              simp [run, hsel, hf]
            obtain ⟨g1, g2⟩ := cons_event_inv tried (.skippedForced p)
              (run env fuel (p :: tried) cur' lastErr).2 hpt ih1 ih2
            refine ⟨htr ▸ g1, htr ▸ g2, ?_⟩
            rw [htr]
            simpa [Event.isForward] using Nat.le_succ_of_le ih3
          · by_cases hb : env.breakerShort p = true
            · obtain ⟨ih1, ih2, ih3⟩ :=
                run_trace_inv env fuel (p :: tried) cur' "circuit breaker is open"
              have htr : (run env (fuel + 1) tried cursor lastErr).2 =
                  .breakerShort p ::
                    (run env fuel (p :: tried) cur' "circuit breaker is open").2 := by
                simp [run, hsel, hf, hb]
              obtain ⟨g1, g2⟩ := cons_event_inv tried (.breakerShort p)
                (run env fuel (p :: tried) cur' "circuit breaker is open").2 hpt ih1 ih2
              refine ⟨htr ▸ g1, htr ▸ g2, ?_⟩
              rw [htr]
              simpa [Event.isForward] using Nat.le_succ_of_le ih3
            · cases hfw : forwardRequest (env.reply p) with
              | ok resp =>
                  have htr : (run env (fuel + 1) tried cursor lastErr).2 =
                      [.forwarded p true] := by
                    simp [run, hsel, hf, hb, hfw]
                  refine ⟨?_, ?_, ?_⟩ <;> rw [htr]
                  · intro e he
                    rcases List.mem_singleton.mp he with rfl
                    exact hpt
                  · simp
                  · simp [Event.isForward]
              | error msg =>
                  obtain ⟨ih1, ih2, ih3⟩ :=
                    run_trace_inv env fuel (p :: tried) cur' msg
                  have htr : (run env (fuel + 1) tried cursor lastErr).2 =
                      .forwarded p false ::
                        (run env fuel (p :: tried) cur' msg).2 := by
                    simp [run, hsel, hf, hb, hfw]
                  obtain ⟨g1, g2⟩ := cons_event_inv tried (.forwarded p false)
                    (run env fuel (p :: tried) cur' msg).2 hpt ih1 ih2
                  refine ⟨htr ▸ g1, htr ▸ g2, ?_⟩
                  rw [htr]
                  simpa [Event.isForward] using Nat.succ_le_succ ih3

/-- C5: for every dispatched request - any pool, Redis contents, operator
overrides, breaker states and upstream behaviours - the attempt trace of
`ExecuteWithRetry` names each provider at most once, and the number of
actual forward attempts is at most maxRetries = 3 (hardcoded at
retry.go line 51) regardless of pool size. -/
theorem no_double_try_and_bounded {ρ : Type} (env : Env ρ) (cursor : Nat)
    (lastErr : String) :
    (((run env 3 [] cursor lastErr).2.map Event.provider).Nodup) ∧
    ((run env 3 [] cursor lastErr).2.filter Event.isForward).length ≤ 3 := by
  obtain ⟨-, h2, h3⟩ := run_trace_inv env 3 [] cursor lastErr
  exact ⟨h2, h3⟩

/-- A list never compares below itself. -/
theorem charListLt_irrefl : ∀ l, charListLt l l = false
  | [] => rfl
  | c :: cs => by simp [charListLt, charListLt_irrefl cs]

/-- Asymmetry of the lexicographic comparison. -/
theorem charListLt_asymm : ∀ a b, charListLt a b = true → charListLt b a = false
  | [], [] => by simp [charListLt]
  | [], _ :: _ => by simp [charListLt]
  | _ :: _, [] => by simp [charListLt]
  | c :: cs, d :: ds => by
      intro h
      by_cases h1 : c.toNat < d.toNat
      · have h2 : ¬ d.toNat < c.toNat := by omega
        simp [charListLt, h1, h2]
      · by_cases h2 : d.toNat < c.toNat
        · simp [charListLt, h1, h2] at h
        · simp [charListLt, h1, h2] at h ⊢
          exact charListLt_asymm cs ds h

/-- Transitivity of the lexicographic comparison. -/
theorem charListLt_trans :
    ∀ a b c, charListLt a b = true → charListLt b c = true →
      charListLt a c = true
  | [], [], _ => by simp [charListLt]
  | [], _ :: _, [] => by simp [charListLt]
  | [], _ :: _, _ :: _ => by simp [charListLt]
  | _ :: _, [], _ => by simp [charListLt]
  | _ :: _, _ :: _, [] => by intro _ h; simp [charListLt] at h
  | a :: as, b :: bs, c :: cs => by
      intro h1 h2
      by_cases hab : a.toNat < b.toNat <;> by_cases hbc : b.toNat < c.toNat
      · have : a.toNat < c.toNat := by omega
        simp [charListLt, this]
      · by_cases hcb : c.toNat < b.toNat
        · simp [charListLt, hbc, hcb] at h2
        · have : a.toNat < c.toNat := by omega
          simp [charListLt, this]
      · by_cases hba : b.toNat < a.toNat
        · simp [charListLt, hab, hba] at h1
        · have : a.toNat < c.toNat := by omega
          simp [charListLt, this]
      · by_cases hba : b.toNat < a.toNat
        · simp [charListLt, hab, hba] at h1
        · by_cases hcb : c.toNat < b.toNat
          · simp [charListLt, hbc, hcb] at h2
          · have hac : ¬ a.toNat < c.toNat := by omega
            have hca : ¬ c.toNat < a.toNat := by omega
            simp [charListLt, hab, hba] at h1
            simp [charListLt, hbc, hcb] at h2
            simp [charListLt, hac, hca]
            exact charListLt_trans as bs cs h1 h2

/-- Incomparable lists are equal. -/
theorem charListLt_conn :
    ∀ a b, charListLt a b = false → charListLt b a = false → a = b
  | [], [] => by simp
  | [], _ :: _ => by simp [charListLt]
  | _ :: _, [] => by intro _ h; simp [charListLt] at h
  | c :: cs, d :: ds => by
      intro h1 h2
      by_cases hcd : c.toNat < d.toNat
      · simp [charListLt, hcd] at h1
      · by_cases hdc : d.toNat < c.toNat
        · simp [charListLt, hdc] at h2
        · have hc : c = d := Char.ext (UInt32.ext (by
            unfold Char.toNat at hcd hdc
            omega))
          simp [charListLt, hcd, hdc] at h1 h2
          rw [hc, charListLt_conn cs ds h1 h2]

/-- Incomparable strings are equal. -/
theorem strLt_conn {a b : String} (h1 : strLt a b = false)
    (h2 : strLt b a = false) : a = b :=
  String.ext (charListLt_conn _ _ h1 h2)

instance : IsTotal (String × String) pairLe where
  total a b := by
    cases h1 : strLt a.1 b.1
    · cases h2 : strLt b.1 a.1
      · have he : a.1 = b.1 := strLt_conn h1 h2
        cases h3 : strLt b.2 a.2
        · exact Or.inl (Or.inr ⟨he, h3⟩)
        · exact Or.inr (Or.inr ⟨he.symm, charListLt_asymm _ _ h3⟩)
      · exact Or.inr (Or.inl h2)
    · exact Or.inl (Or.inl h1)

instance : IsTrans (String × String) pairLe where
  trans a b c hab hbc := by
    have notlt_trans : ∀ x y z : String, strLt y x = false →
        strLt z y = false → strLt z x = false := by
      intro x y z hyx hzy
      cases hzx : strLt z x
      · rfl
      · cases hyz : strLt y z
        · cases hzy2 : strLt z y
          · rw [strLt_conn hyz hzy2] at hyx
            rw [hyx] at hzx
            exact hzx.symm
          · rw [hzy] at hzy2
            exact absurd hzy2 (by simp)
        · have := charListLt_trans _ _ _ hyz hzx
          simp only [String.toList] at this
          simp [strLt, String.toList, this] at hyx
    rcases hab with h1 | ⟨h1, h1'⟩
    · rcases hbc with h2 | ⟨h2, h2'⟩
      · exact Or.inl (charListLt_trans _ _ _ h1 h2)
      · exact Or.inl (h2 ▸ h1)
    · rcases hbc with h2 | ⟨h2, h2'⟩
      · exact Or.inl (h1 ▸ h2)
      · exact Or.inr ⟨h1.trans h2, notlt_trans a.2 b.2 c.2 h1' h2'⟩

instance : IsAntisymm (String × String) pairLe where
  antisymm a b hab hba := by
    rcases hab with h1 | ⟨h1, h1'⟩
    · rcases hba with h2 | ⟨h2, h2'⟩
      · have := charListLt_asymm _ _ h1
        simp only [String.toList] at this
        simp [strLt, String.toList, this] at h2
      · rw [h2] at h1
        rw [show strLt a.1 a.1 = false from charListLt_irrefl _] at h1
        exact absurd h1 (by simp)
    · rcases hba with h2 | ⟨h2, h2'⟩
      · rw [h1] at h2
        rw [show strLt b.1 b.1 = false from charListLt_irrefl _] at h2
        exact absurd h2 (by simp)
      · exact Prod.ext h1 (strLt_conn h2' h1')

/-- Sorting serialized fields is canonical on multisets: permuted field
lists sort to the same output. -/
theorem sortPairs_perm_eq {l1 l2 : List (String × String)}
    (h : l1.Perm l2) : sortPairs l1 = sortPairs l2 := by
  refine List.eq_of_perm_of_sorted (r := pairLe) ?_ ?_ ?_
  · exact ((List.perm_insertionSort pairLe l1).trans h).trans
      (List.perm_insertionSort pairLe l2).symm
  · exact List.sorted_insertionSort pairLe l1
  · exact List.sorted_insertionSort pairLe l2

/-- Inserting a field permutes into consing its serialization. -/
theorem serializeFields_sortObjInsert (k : String) (v : Json) :
    ∀ fs : JsonObj,
      (JsonObj.serializeFields (sortObjInsert k v fs)).Perm
        ((k, v.serialize) :: JsonObj.serializeFields fs)
  | .nil => by simp [sortObjInsert, JsonObj.serializeFields]
  | .cons k' v' tl => by
      cases hk : strLt k' k
      · simp [sortObjInsert, hk, JsonObj.serializeFields]
      · have ih := serializeFields_sortObjInsert k v tl
        simp only [sortObjInsert, hk, JsonObj.serializeFields,
          Bool.true_eq_false, if_false]
        exact (ih.cons _).trans (List.Perm.swap _ _ _)

/-- Sorting object fields permutes their serializations. -/
theorem serializeFields_sortObj :
    ∀ fs : JsonObj,
      (JsonObj.serializeFields (sortObj fs)).Perm (JsonObj.serializeFields fs)
  | .nil => by simp [sortObj]
  | .cons k v tl => by
      have ih := serializeFields_sortObj tl
      simp only [sortObj, JsonObj.serializeFields]
      exact (serializeFields_sortObjInsert k v (sortObj tl)).trans (ih.cons _)

mutual

/-- Canonicalization does not change the serialized form: `json.Marshal`
already sorts object keys, so a value and its canonical form marshal
identically. -/
theorem Json.serialize_canon : ∀ j : Json, j.canon.serialize = j.serialize
  | .null => rfl
  | .bool b => by cases b <;> rfl
  | .num n => rfl
  | .str s => rfl
  | .arr xs => by
      simp only [Json.canon, Json.serialize, JsonArr.serializeItems_canon xs]
  | .obj fs => by
      simp only [Json.canon, Json.serialize]
      rw [sortPairs_perm_eq (serializeFields_sortObj (JsonObj.canonFields fs)),
        JsonObj.serializeFields_canon fs]

/-- Array-item version of `Json.serialize_canon`. -/
theorem JsonArr.serializeItems_canon :
    ∀ xs : JsonArr, (JsonArr.canonItems xs).serializeItems = xs.serializeItems
  | .nil => rfl
  | .cons hd .nil => by
      simp only [JsonArr.canonItems, JsonArr.serializeItems,
        Json.serialize_canon hd]
  | .cons hd (.cons hd' tl) => by
      have ih := JsonArr.serializeItems_canon (JsonArr.cons hd' tl)
      simp only [JsonArr.canonItems] at ih ⊢
      simp only [JsonArr.serializeItems, Json.serialize_canon hd, ih]

/-- Field version of `Json.serialize_canon`. -/
theorem JsonObj.serializeFields_canon :
    ∀ fs : JsonObj,
      (JsonObj.canonFields fs).serializeFields = fs.serializeFields
  | .nil => rfl
  | .cons k v tl => by
      simp only [JsonObj.canonFields, JsonObj.serializeFields,
        Json.serialize_canon v, JsonObj.serializeFields_canon tl]

end

/-- Unmarshalling a marshalled `RPCError` restores it. -/
theorem decodeErr_encodeErr (e : RPCError) : decodeErr (encodeErr e) = some e := by
  obtain ⟨c, m, d⟩ := e
  cases d <;> simp [encodeErr, decodeErr, objLookup]

/-- Unmarshalling a marshalled `RPCResponse` restores it. -/
theorem decodeResp_encodeResp (r : RPCResponse) :
    decodeResp (encodeResp r) = some r := by
  obtain ⟨v, i, res, err⟩ := r
  cases err with
  | none =>
      cases res <;> simp [encodeResp, decodeResp, objLookup]
  | some e =>
      have hne : encodeErr e ≠ .null := by
        obtain ⟨c, m, d⟩ := e
        cases d <;> simp [encodeErr]
      cases res <;>
        simp [encodeResp, decodeResp, objLookup, decodeErr_encodeErr]

/-- Storing a cacheable response and looking the same request up again:
a hit with the identical response while the TTL lasts, a miss after it
expires. -/
theorem cache_roundtrip (cfg : CachingConfig) (st : CacheStore)
    (now now' : Int) (req : RPCRequest) (resp : RPCResponse) (ttl : Int)
    (he : cfg.enabled = true) (hm : cfg.methods.lookup req.method = some ttl)
    (hpos : 0 < ttl) :
    (now' < now + ttl →
      getCachedResponse cfg (storeResponse cfg st now req resp) now' req =
        .hit resp) ∧
    (now + ttl ≤ now' →
      getCachedResponse cfg (storeResponse cfg st now req resp) now' req =
        .miss) := by
  have hn : ¬ ttl ≤ 0 := not_le.mpr hpos
  have hstore : storeResponse cfg st now req resp =
      (generateKey req, encodeResp resp, now + ttl) :: st := by
    simp [storeResponse, he, hm, hn, storeSet]
  have hfind : List.find? (fun e => e.1 = generateKey req)
      ((generateKey req, encodeResp resp, now + ttl) :: st) =
      some (generateKey req, encodeResp resp, now + ttl) := by
    simp [List.find?]
  constructor
  · intro hlt
    simp [getCachedResponse, he, hm, hn, hstore, storeGet, hfind, hlt,
      decodeResp_encodeResp]
  · intro hge
    simp [getCachedResponse, he, hm, hn, hstore, storeGet, hfind,
      not_lt.mpr hge]

/-- C8: for a cacheable method (caching enabled, method in the TTL table
with positive TTL), storing a response and looking the same request up
within the TTL returns that very response; after the TTL has elapsed the
lookup is a miss. -/
theorem cache_idempotence (cfg : CachingConfig) (st : CacheStore)
    (now now' : Int) (req : RPCRequest) (resp : RPCResponse) (ttl : Int)
    (he : cfg.enabled = true) (hm : cfg.methods.lookup req.method = some ttl)
    (hpos : 0 < ttl) :
    (now' < now + ttl →
      getCachedResponse cfg (storeResponse cfg st now req resp) now' req =
        .hit resp) ∧
    (now + ttl ≤ now' →
      getCachedResponse cfg (storeResponse cfg st now req resp) now' req =
        .miss) :=
  cache_roundtrip cfg st now now' req resp ttl he hm hpos

/-- Witness: cache idempotence at the concrete getSlot configuration. -/
theorem cache_idempotence_witness :
    ((100 : Int) < 0 + 500 →
      getCachedResponse cfgGetSlot
        (storeResponse cfgGetSlot [] 0 reqGetSlot respWithError) 100
        reqGetSlot = .hit respWithError) ∧
    ((0 : Int) + 500 ≤ 600 →
      getCachedResponse cfgGetSlot
        (storeResponse cfgGetSlot [] 0 reqGetSlot respWithError) 600
        reqGetSlot = .miss) := by
  have h := cache_idempotence cfgGetSlot [] 0 100 reqGetSlot respWithError 500
    rfl rfl (by norm_num)
  have h' := cache_idempotence cfgGetSlot [] 0 600 reqGetSlot respWithError 500
    rfl rfl (by norm_num)
  exact ⟨h.1, h'.2⟩

/-- C4 counterexample: a response whose `error` field is set IS written
to the cache by `StoreResponse` - a later lookup of the same request
within the TTL returns the cached error response, contradicting the
claim that only result-populated responses are cached. -/
theorem error_response_cached_counterexample :
    getCachedResponse cfgGetSlot
      (storeResponse cfgGetSlot [] 0 reqGetSlot respWithError) 250
      reqGetSlot = .hit respWithError ∧
    respWithError.error ≠ none :=
  ⟨(cache_roundtrip cfgGetSlot [] 0 250 reqGetSlot respWithError 500
      rfl rfl (by norm_num)).1 (by norm_num),
   by simp [respWithError]⟩

/-- C4 (amended): `StoreResponse` never inspects the response's `error`
field - for any cacheable method it caches the response even when
`error` is populated, and the cached error response is served back
within the TTL. -/
theorem error_responses_are_cached (cfg : CachingConfig) (st : CacheStore)
    (now now' : Int) (req : RPCRequest) (resp : RPCResponse) (ttl : Int)
    (e : RPCError)
    (he : cfg.enabled = true) (hm : cfg.methods.lookup req.method = some ttl)
    (hpos : 0 < ttl) (_herr : resp.error = some e) (ht : now' < now + ttl) :
    getCachedResponse cfg (storeResponse cfg st now req resp) now' req =
      .hit resp :=
  (cache_roundtrip cfg st now now' req resp ttl he hm hpos).1 ht

/-- Witness for the amended C4 claim at the concrete error response. -/
theorem error_responses_are_cached_witness :
    getCachedResponse cfgGetSlot
      (storeResponse cfgGetSlot [] 0 reqGetSlot respWithError) 250
      reqGetSlot = .hit respWithError :=
  error_responses_are_cached cfgGetSlot [] 0 250 reqGetSlot respWithError 500
    ⟨-32000, "upstream failure", .null⟩ rfl rfl (by norm_num) rfl (by norm_num)

/-- C9: the cache key generated by `generateKey` depends only on the
method and the params as JSON values - requests agreeing on method and
on params up to object field order (and with arbitrary ids) get the same
key - and the key has the form
`rpc:cache:<method>:<hex of the first 8 bytes of SHA-256 of the
JSON-serialized params>`. -/
theorem fingerprint_deterministic (r1 r2 : RPCRequest)
    (hm : r1.method = r2.method)
    (hp : (paramsJson r1.params).canon = (paramsJson r2.params).canon) :
    generateKey r1 = generateKey r2 ∧
    generateKey r1 = "rpc:cache:" ++ r1.method ++ ":" ++
      hexBytes ((sha256 (strBytes
        (Json.serialize (paramsJson r1.params)))).take 8) := by
  have hser : Json.serialize (paramsJson r1.params) =
      Json.serialize (paramsJson r2.params) := by
    rw [← Json.serialize_canon (paramsJson r1.params), hp,
      Json.serialize_canon (paramsJson r2.params)]
  exact ⟨by simp [generateKey, hm, hser], rfl⟩

/-- Witness: two getBlock requests with different ids and object-field
orders inside params generate the same cache key of the specified form. -/
theorem fingerprint_deterministic_witness :
    generateKey ⟨"2.0", .num 1, "getBlock", paramsAB⟩ =
      generateKey ⟨"2.0", .num 7, "getBlock", paramsBA⟩ ∧
    generateKey ⟨"2.0", .num 1, "getBlock", paramsAB⟩ =
      "rpc:cache:" ++ "getBlock" ++ ":" ++
      hexBytes ((sha256 (strBytes
        (Json.serialize (paramsJson paramsAB)))).take 8) :=
  fingerprint_deterministic ⟨"2.0", .num 1, "getBlock", paramsAB⟩
    ⟨"2.0", .num 7, "getBlock", paramsBA⟩ rfl (by rfl)

/-- One retry-loop iteration that forwards successfully returns at once. -/
theorem run_step_success {ρ : Type} (env : Env ρ) (fuel : Nat)
    (tried : List String) (cursor c' : Nat) (lastErr : String)
    (p : String) (resp : ρ)
    (hsel : nextWithExclude env.pool tried cursor env.healthOf env.latencyOf =
      (.ok p, c'))
    (hf : env.forced p = false) (hb : env.breakerShort p = false)
    (hfwd : forwardRequest (env.reply p) = .ok resp) :
    run env (fuel + 1) tried cursor lastErr =
      (.success resp p, [.forwarded p true]) := by
  simp [run, hsel, hf, hb, hfwd]

/-- One retry-loop iteration against an open breaker fails fast: the
provider is marked tried, the breaker error becomes the last error, and
the loop continues with one fewer attempt. -/
theorem run_step_short {ρ : Type} (env : Env ρ) (fuel : Nat)
    (tried : List String) (cursor c' : Nat) (lastErr : String) (p : String)
    (hsel : nextWithExclude env.pool tried cursor env.healthOf env.latencyOf =
      (.ok p, c'))
    (hf : env.forced p = false) (hb : env.breakerShort p = true) :
    run env (fuel + 1) tried cursor lastErr =
      ((run env fuel (p :: tried) c' "circuit breaker is open").1,
       .breakerShort p ::
         (run env fuel (p :: tried) c' "circuit breaker is open").2) := by
  simp [run, hsel, hf, hb]

/-- One retry-loop iteration whose forward fails as a transport error:
the provider is marked tried, the transport error becomes the last
error, and the loop continues with one fewer attempt. -/
theorem run_step_fail {ρ : Type} (env : Env ρ) (fuel : Nat)
    (tried : List String) (cursor c' : Nat) (lastErr : String) (p : String)
    (msg : String)
    (hsel : nextWithExclude env.pool tried cursor env.healthOf env.latencyOf =
      (.ok p, c'))
    (hf : env.forced p = false) (hb : env.breakerShort p = false)
    (hfwd : forwardRequest (env.reply p) = .error msg) :
    run env (fuel + 1) tried cursor lastErr =
      ((run env fuel (p :: tried) c' msg).1,
       .forwarded p false :: (run env fuel (p :: tried) c' msg).2) := by
  simp [run, hsel, hf, hb, hfwd]

/-- In the S4 environment the request runs as: A selected first, breaker
short-circuits (attempt consumed), B selected next and succeeds. -/
theorem envC3_run (resp : RPCResponse) :
    run (envC3 resp) 3 [] 0 "" =
      (.success resp "B", [.breakerShort "A", .forwarded "B" true]) := by
  have h1 := run_step_short (envC3 resp) 2 [] 0 1 "" "A" (by rfl) rfl rfl
  have h2 := run_step_success (envC3 resp) 1 ["A"] 1 2
    "circuit breaker is open" "B" resp
    (by show nextWithExclude ["A", "B"] ["A"] 1 noSnapshots noSamples =
          (.ok "B", 2)
        decide)
    rfl rfl (by rfl)
  rw [h1, h2]

/-- C3 counterexample: with pool [A, B] and A's breaker Open, selection
still returns A (`NextWithExclude` consults only the exclusion set and
health, never breaker state), and the request's trace is not the single
successful attempt on B the claim predicts - A consumes the first
attempt. -/
theorem breaker_open_counterexample :
    (nextWithExclude ["A", "B"] [] 0 noSnapshots noSamples).1 = .ok "A" ∧
    (run (envC3 resp42) 3 [] 0 "").2 ≠ [.forwarded "B" true] := by
  constructor
  · rfl
  · rw [envC3_run resp42]
    decide

/-- C3 (amended): a provider whose breaker is Open is not excluded from
selection; when selected, the breaker short-circuits the call without
contacting the provider, and that skip consumes one of the request's
attempts.  The provider is excluded from the request's later attempts
(via the tried set), so with pool [A, B] the request still succeeds via B
on its second attempt. -/
theorem breaker_open_consumes_attempt (resp : RPCResponse) :
    (nextWithExclude ["A", "B"] [] 0 noSnapshots noSamples).1 = .ok "A" ∧
    run (envC3 resp) 3 [] 0 "" =
      (.success resp "B", [.breakerShort "A", .forwarded "B" true]) :=
  ⟨by rfl, envC3_run resp⟩

/-- C7 counterexample: an HTTP 202 Accepted reply - a 2xx status other
than 200 - whose body is a well-formed JSON-RPC response with a
populated `error` field is rejected by `ForwardRequest` as a transport
error (part_000 line 131 tests `StatusCode != http.StatusOK`), the
dispatch engine retries the next provider instead of returning it on the
first attempt, and the failed attempt increments - not resets - the
breaker's consecutive-failure counter: every conjunct of the claim fails
on this part of its stated 2xx domain. -/
theorem non200_reply_counterexample :
    forwardRequest (.httpResp 202 (decodeResp bodyWithError)) =
      .error "provider returned HTTP error status" ∧
    run env202 3 [] 0 "" =
      (.success respWithError "B",
       [.forwarded "A" false, .forwarded "B" true]) ∧
    breakerRecord 0 false = 1 := by
  refine ⟨by simp [forwardRequest], ?_, rfl⟩
  have hfwdA : forwardRequest (env202.reply "A") =
      .error "provider returned HTTP error status" := by
    simp [env202, forwardRequest]
  have hfwdB : forwardRequest (env202.reply "B") = .ok respWithError := by
    simp [env202, forwardRequest, bodyWithError, decodeResp_encodeResp]
  have h1 := run_step_fail env202 2 [] 0 1 ""
    "A" "provider returned HTTP error status" (by rfl) rfl rfl hfwdA
  have h2 := run_step_success env202 1 ["A"] 1 2
    "provider returned HTTP error status" "B" respWithError
    (by show nextWithExclude ["A", "B"] ["A"] 1 noSnapshots noSamples =
          (.ok "B", 2)
        decide)
    rfl rfl hfwdB
  rw [h1, h2]

/-- C7 (amended): an upstream reply with HTTP status exactly 200 whose
body unmarshals to a JSON-RPC response with a populated `error` field is
returned by `ForwardRequest` with a nil transport error; the retry loop
returns it to the caller on the first attempt without trying another
provider; and the breaker records the outcome as a success, resetting -
not incrementing - its consecutive-failure counter.  (Any non-200
status, including other 2xx codes, is a transport error instead.) -/
theorem error_field_is_transport_success (body : Json) (r : RPCResponse)
    (e : RPCError) (n : Nat)
    (hd : decodeResp body = some r) (_he : r.error = some e) :
    forwardRequest (.httpResp 200 (decodeResp body)) = .ok r ∧
    run (envC7 body) 3 [] 0 "" = (.success r "A", [.forwarded "A" true]) ∧
    breakerRecord n true = 0 := by
  have hfwd : forwardRequest ((envC7 body).reply "A") = .ok r := by
    simp [envC7, forwardRequest, hd]
  refine ⟨by simp [forwardRequest, hd], ?_, rfl⟩
  exact run_step_success (envC7 body) 2 [] 0 1 "" "A" r (by rfl) rfl rfl hfwd

/-- Witness: the concrete error-carrying body flows through forward,
dispatch and breaker as a success. -/
theorem error_field_is_transport_success_witness :
    forwardRequest (.httpResp 200 (decodeResp bodyWithError)) =
      .ok respWithError ∧
    run (envC7 bodyWithError) 3 [] 0 "" =
      (.success respWithError "A", [.forwarded "A" true]) ∧
    breakerRecord 4 true = 0 :=
  error_field_is_transport_success bodyWithError respWithError
    ⟨-32000, "upstream failure", .null⟩ 4
    (decodeResp_encodeResp respWithError) rfl

end Heimdall
